import Mathlib

/-!
Verification of the `reload` live-reload middleware (Go).

This file gives a shallow embedding of the parts of the repository the
claims are about and settles each claim:

* `handler.go` : `insertScriptIntoHTML` (script injector).
* `wrap_writer` (copied from chi's middleware): `newWrapResponseWriter`
  and the capability-specific writer variants, plus `basicWriter`'s
  `WriteHeader` / `Write` / `ReadFrom` behaviour (header snapshot,
  content-length growth, tee mirroring).
* `reload.go` : `expectingDocument` (request classifier) and the tail of
  `Handle` (content-type resolution and raw script append).
* `watch.go` : the initialization phase of `WatchDirectories` and the
  create-event branch of its watch loop.

Modelling conventions: Go `[]byte` and `string` data flowing through the
middleware is modelled as `List Char` (all relevant comparisons are over
ASCII); header values kept as Lean `String`. Go `int` is modelled as a
64-bit machine integer: `Int` with an explicit wrap (`wrap64`) where an
addition can overflow. Code that can panic is modelled with `Option`
(`none` = runtime panic). `strings.EqualFold`, `strings.ToLower` and
`strings.TrimSpace` are modelled by their ASCII behaviour; both sides of
every comparison below are ASCII, so no claim depends on the difference.
-/

/-! ### Basic byte-slice helpers (Go `bytes` / `strings` package models) -/

/-- Does `pat` occur as a prefix of `hay`? (Model of `bytes.HasPrefix`.) -/
def startsWithList : List Char → List Char → Bool
  | [], _ => true
  | _ :: _, [] => false
  | p :: ps, h :: hs => p = h && startsWithList ps hs

/-- Model of Go `bytes.Index` (`strings.Index`): byte index of the first
occurrence of `pat` in `hay`, `none` when absent. -/
def listIndexOf (pat : List Char) : List Char → Option Nat
  | [] => if startsWithList pat [] then some 0 else none
  | h :: t =>
      if startsWithList pat (h :: t) then some 0
      else (listIndexOf pat t).map (· + 1)

/-- Model of Go `bytes.IndexRune` for an ASCII rune: index of the first
occurrence of character `c`. -/
def charIndexOf (c : Char) : List Char → Option Nat
  | [] => none
  | h :: t => if h = c then some 0 else (charIndexOf c t).map (· + 1)

/-- Model of Go `strings.HasPrefix` on header strings. -/
def goHasPrefix (s pre : String) : Bool :=
  startsWithList pre.data s.data

/-! ### `handler.go` — `insertScriptIntoHTML`

Embedded from `handler.go` lines 104-134. The function returns
`Option (List Char)`: `none` models the Go runtime panic that the
source hits when it evaluates `src[:index+len(match)+offset]` with
`index+len(match)+offset > len(src)` (slice bounds out of range for an
exact-capacity slice). -/

def closeBodyTag : List Char := ("</body>").data

def openBodyTag : List Char := ("<body").data

/-- Shallow embedding of `insertScriptIntoHTML(src, script []byte) []byte`.
`bytes.Index(src, []byte("</body>"))`; if found, insert `script` before it.
Otherwise `bytes.Index(src, []byte("<body"))`, then
`offset := bytes.IndexRune(src[index:], '>')`, and if found the source
writes `src[:index+len(match)+offset]`, `script`, `src[index+len(match)+offset:]`.
Note `offset` is measured from `index`, not from after the `"<body"` match. -/
def insertScriptIntoHTML (src script : List Char) : Option (List Char) :=
  match listIndexOf closeBodyTag src with
  | some index => some (src.take index ++ script ++ src.drop index)
  | none =>
      match listIndexOf openBodyTag src with
      | some index =>
          match charIndexOf '>' (src.drop index) with
          | some offset =>
              let p := index + openBodyTag.length + offset
              if p ≤ src.length then
                some (src.take p ++ script ++ src.drop p)
              else
                none
          | none => some src
      | none => some src

/-! ### `wrap_writer` — `newWrapResponseWriter` capability selection

Embedded from the wrap-writer file, lines 15-44, together with the method
sets that each returned variant defines in that file:
`basicWriter` (no optional capability), `flushWriter` (`Flush`),
`hijackWriter` (`Hijack`), `flushHijackWriter` (`Flush`, `Hijack`),
`httpFancyWriter` (`Flush`, `Hijack`, `ReadFrom`) and
`http2FancyWriter` (`Flush`, `Push`). -/

/-- The four optional capabilities of a response sink: `http.Flusher`,
`http.Hijacker`, `http.Pusher`, `io.ReaderFrom`. -/
structure Caps where
  flusher : Bool
  hijacker : Bool
  pusher : Bool
  readerFrom : Bool
deriving DecidableEq

/-- The wrapper variants that `newWrapResponseWriter` can return. -/
inductive WriterVariant
  | basic
  | flush
  | hijack
  | flushHijack
  | httpFancy
  | http2Fancy
deriving DecidableEq

/-- Shallow embedding of `newWrapResponseWriter(w, protoMajor, scriptSize)`:
the variant selected from the underlying sink's capability set. -/
def newWrapResponseWriter (protoMajor : Nat) (c : Caps) : WriterVariant :=
  if protoMajor = 2 then
    if c.flusher && c.pusher then WriterVariant.http2Fancy
    else if c.flusher then WriterVariant.flush
    else WriterVariant.basic
  else
    if c.flusher && c.hijacker && c.readerFrom then WriterVariant.httpFancy
    else if c.flusher && c.hijacker then WriterVariant.flushHijack
    else if c.hijacker then WriterVariant.hijack
    else if c.flusher then WriterVariant.flush
    else WriterVariant.basic

/-- The capability set each wrapper variant itself implements, read off the
method definitions in the wrap-writer file (note `http2FancyWriter`
defines only `Flush` and `Push` there, no `ReadFrom` and no `Hijack`). -/
def variantCaps : WriterVariant → Caps
  | WriterVariant.basic => ⟨false, false, false, false⟩
  | WriterVariant.flush => ⟨true, false, false, false⟩
  | WriterVariant.hijack => ⟨false, true, false, false⟩
  | WriterVariant.flushHijack => ⟨true, true, false, false⟩
  | WriterVariant.httpFancy => ⟨true, true, false, true⟩
  | WriterVariant.http2Fancy => ⟨true, false, true, false⟩

/-- `a` is a capability subset of `b`. -/
def capsSubset (a b : Caps) : Bool :=
  (!a.flusher || b.flusher) && (!a.hijacker || b.hijacker) &&
    (!a.pusher || b.pusher) && (!a.readerFrom || b.readerFrom)

/-- Exact characterization of when the wrapper preserves the full
capability set of the sink. -/
def capsPreserved (protoMajor : Nat) (c : Caps) : Bool :=
  if protoMajor = 2 then
    !c.hijacker && !c.readerFrom && (!c.pusher || c.flusher)
  else
    !c.pusher && (!c.readerFrom || (c.flusher && c.hijacker))

/-- C1 counterexample: an HTTP/1 sink that supports incremental flush and
bulk-copy-from-reader but not hijack gets wrapped in `flushWriter`, which
drops the bulk-copy capability, so the wrapper's capability set is not
exactly the sink's. -/
theorem newWrapResponseWriter_capability_cex :
    variantCaps (newWrapResponseWriter 1 ⟨true, false, false, true⟩) ≠
      ⟨true, false, false, true⟩ := by
  decide

/-- C1 (amended): the wrapper never exposes a capability the underlying
sink lacks, and it exposes exactly the sink's capability set if and only
if `capsPreserved` holds: for HTTP/1 the sink has no server-push and
supports bulk-copy only when it supports both flush and hijack; for
HTTP/2 the sink has neither hijack nor bulk-copy, and push only together
with flush. -/
theorem newWrapResponseWriter_capability_subset :
    ∀ (p : Nat) (c : Caps),
      capsSubset (variantCaps (newWrapResponseWriter p c)) c = true ∧
        (variantCaps (newWrapResponseWriter p c) = c ↔ capsPreserved p c = true) := by
  intro p c
  obtain ⟨fl, hj, ps, rf⟩ := c
  by_cases hp : p = 2
  · subst hp
    revert fl hj ps rf
    decide
  · simp only [newWrapResponseWriter, capsPreserved, if_neg hp]
    revert fl hj ps rf
    decide

/-- C5: evaluation of the source's `insertScriptIntoHTML` at the spec
scenario input. The first `'>'` after `"<body"` sits at byte 5, and the
source cuts at `index + len("<body") + offset = 10`, four bytes past the
closing `'>'`, so the script lands inside `<h1>` instead of right after
`<body>`. -/
theorem insertScriptIntoHTML_misplaced_insertion :
    insertScriptIntoHTML (("<body><h1>x</h1>").data) (("<script>S</script>").data) =
        some (("<body><h1><script>S</script>x</h1>").data) ∧
      ("<body><h1><script>S</script>x</h1>" : String) ≠
        ("<body><script>S</script><h1>x</h1>") := by
  constructor
  · rfl
  · decide

/-- C10: evaluation at the out-of-range input. For `src = "<body>"` the
cut position is `0 + 5 + 5 = 10 > 6`, so the source panics (slice bounds
out of range), modelled as `none`; and an input containing `"<body"` with
no `'>'` at or after it (and no `"</body>"`) is returned unchanged. -/
theorem insertScriptIntoHTML_out_of_range :
    insertScriptIntoHTML (("<body>").data) (("S").data) = none ∧
      insertScriptIntoHTML (("a>b<body x").data) (("S").data) =
        some (("a>b<body x").data) := by
  constructor
  · rfl
  · rfl

/-! ### `reload.go` — `expectingDocument` request classifier

Embedded from `reload.go` lines 99-139. A Go `http.Header` is modelled by
the value lists of the three keys the function reads; `h.Get(k)` returns
the first value or the empty string, `h.Values(k)` returns the whole
list. -/

/-- ASCII lower-casing of one character (model of `strings.ToLower` on the
ASCII header values compared here). -/
def asciiLower (c : Char) : Char :=
  if 'A' ≤ c ∧ c ≤ 'Z' then Char.ofNat (c.toNat + 32) else c

/-- Model of `strings.ToLower`. -/
def toLowerList (s : List Char) : List Char :=
  s.map asciiLower

/-- Model of `strings.EqualFold` (ASCII fold). -/
def equalFold (a b : List Char) : Bool :=
  toLowerList a = toLowerList b

/-- Whitespace characters trimmed by `strings.TrimSpace` (Latin-1 part of
`unicode.IsSpace`). -/
def isGoSpace (c : Char) : Bool :=
  c = ' ' || c = '\t' || c = '\n' || c = '\x0b' || c = '\x0c' || c = '\r' ||
    c = '\x85' || c = '\xa0'

/-- Model of `strings.TrimSpace`. -/
def trimSpaceList (s : List Char) : List Char :=
  ((s.dropWhile isGoSpace).reverse.dropWhile isGoSpace).reverse

/-- Model of Go `strings.Split(s, sep)` for a one-character separator:
always returns at least one (possibly empty) field. -/
def splitChar (sep : Char) : List Char → List (List Char)
  | [] => [[]]
  | c :: rest =>
      if c = sep then [] :: splitChar sep rest
      else
        match splitChar sep rest with
        | [] => [[c]]
        | g :: gs => (c :: g) :: gs

/-- First element of a Go header value list, or `""`: model of `h.Get`. -/
def headerGet (vs : List (List Char)) : List Char :=
  match vs with
  | [] => []
  | v :: _ => v

/-- The three header keys `expectingDocument` reads. Each field is the
list of values stored under the (canonicalized) key, in order. -/
structure GoHeader where
  secFetchDest : List (List Char)
  upgrade : List (List Char)
  accept : List (List Char)

/-- One `Accept` list entry normalized as in the source:
`cts := strings.Split(expecting, ";")` and then
`strings.TrimSpace(strings.ToLower(cts[0]))`. -/
def normalizeAcceptToken (tok : List Char) : List Char :=
  trimSpaceList (toLowerList (headerGet (splitChar ';' tok)))

/-- The `switch` arm for the HTML media types in the source. -/
def isHTMLMediaType (ct : List Char) : Bool :=
  ct = ("text/html").data || ct = ("application/xhtml+xml").data ||
    ct = ("application/xml").data

/-- Inner loop of `expectingDocument` over the comma-separated entries of
one `Accept` value; `first` is true exactly for the very first entry of
the very first value (`i == 0 && j == 0` in the source). -/
def scanTokens (first : Bool) : List (List Char) → Bool
  | [] => false
  | t :: rest =>
      let ct := normalizeAcceptToken t
      if ct = ("*/*").data then
        if first then true else scanTokens false rest
      else if isHTMLMediaType ct then true
      else scanTokens false rest

/-- Outer loop of `expectingDocument` over the `Accept` values. -/
def scanValues (first : Bool) : List (List Char) → Bool
  | [] => false
  | v :: rest =>
      if scanTokens first (splitChar ',' v) then true
      else scanValues false rest

/-- Shallow embedding of `expectingDocument(h http.Header) bool`. -/
def expectingDocument (h : GoHeader) : Bool :=
  let dest := headerGet h.secFetchDest
  if dest ≠ [] then equalFold dest (("document").data)
  else if equalFold (headerGet h.upgrade) (("websocket").data) then false
  else if equalFold (headerGet h.accept) (("text/event-stream").data) then false
  else if h.accept = [] then true
  else scanValues true h.accept

/-- All comma-separated entries of all `Accept` values, in order. -/
def allAcceptTokens : List (List Char) → List (List Char)
  | [] => []
  | v :: rest => splitChar ',' v ++ allAcceptTokens rest

/-- Modelled from the claim's words (C4, spec §4.2): the five-step
first-match-wins decision procedure. Step 4 is stated extensionally: true
iff an HTML media type appears anywhere in the ordered token list, or the
very first token is the wildcard. -/
def expectingDocumentSpec (h : GoHeader) : Bool :=
  let dest := headerGet h.secFetchDest
  if dest ≠ [] then equalFold dest (("document").data)
  else if equalFold (headerGet h.upgrade) (("websocket").data) then false
  else if equalFold (headerGet h.accept) (("text/event-stream").data) then false
  else if h.accept = [] then true
  else
    let toks := allAcceptTokens h.accept
    (toks.any fun t => isHTMLMediaType (normalizeAcceptToken t)) ||
      (match toks with
       | [] => false
       | t :: _ => normalizeAcceptToken t = ("*/*").data)

theorem splitChar_ne_nil (sep : Char) (s : List Char) : splitChar sep s ≠ [] := by
  induction s with
  | nil => simp [splitChar]
  | cons c rest ih =>
      simp only [splitChar]
      split
      · simp
      · cases h : splitChar sep rest with
        | nil => simp
        | cons g gs => simp

theorem scanTokens_false_eq_any (toks : List (List Char)) :
    scanTokens false toks =
      toks.any fun t => isHTMLMediaType (normalizeAcceptToken t) := by
  induction toks with
  | nil => rfl
  | cons t rest ih =>
      simp only [scanTokens, List.any_cons]
      by_cases hct : normalizeAcceptToken t = ("*/*").data
      · rw [if_pos hct, if_neg (by simp)]
        rw [hct]
        have : isHTMLMediaType (("*/*").data) = false := by decide
        rw [this]
        simpa using ih
      · rw [if_neg hct]
        by_cases hh : isHTMLMediaType (normalizeAcceptToken t) = true
        · rw [if_pos hh, hh]
          simp
        · rw [if_neg hh]
          simp only [Bool.not_eq_true] at hh
          rw [hh]
          simpa using ih

theorem scanValues_false_eq_any (vals : List (List Char)) :
    scanValues false vals =
      (allAcceptTokens vals).any fun t => isHTMLMediaType (normalizeAcceptToken t) := by
  induction vals with
  | nil => rfl
  | cons v rest ih =>
      simp only [scanValues, allAcceptTokens, List.any_append]
      rw [scanTokens_false_eq_any]
      by_cases h : (splitChar ',' v).any (fun t => isHTMLMediaType (normalizeAcceptToken t)) = true
      · rw [h, if_pos rfl]
        simp
      · simp only [Bool.not_eq_true] at h
        rw [h, if_neg (by simp)]
        simpa using ih

theorem scanTokens_true_cons (t : List Char) (ts : List (List Char)) :
    scanTokens true (t :: ts) =
      ((normalizeAcceptToken t = ("*/*").data : Bool) ||
        isHTMLMediaType (normalizeAcceptToken t) || scanTokens false ts) := by
  simp only [scanTokens]
  by_cases hct : normalizeAcceptToken t = ("*/*").data
  · rw [if_pos hct]
    simp [hct]
  · rw [if_neg hct]
    by_cases hh : isHTMLMediaType (normalizeAcceptToken t) = true
    · rw [if_pos hh, hh]
      simp
    · rw [if_neg hh]
      simp only [Bool.not_eq_true] at hh
      simp [hh, hct]

/-- C4: the classifier follows the claimed five-step first-match-wins
decision order (refinement of the code against the spec-side procedure),
and the two scenario examples: `Accept: text/css` with no
`Sec-Fetch-Dest` is not a document, `Accept: text/html,*/*;q=0.8` is. -/
theorem expectingDocument_decision_order :
    (∀ h : GoHeader, expectingDocument h = expectingDocumentSpec h) ∧
      expectingDocument ⟨[], [], [("text/css").data]⟩ = false ∧
      expectingDocument ⟨[], [], [("text/html,*/*;q=0.8").data]⟩ = true := by
  refine ⟨?_, by rfl, by rfl⟩
  intro h
  simp only [expectingDocument, expectingDocumentSpec]
  split
  · rfl
  · split
    · rfl
    · split
      · rfl
      · split
        · rfl
        · rename_i haccept
          cases hacc : h.accept with
          | nil => exact absurd hacc haccept
          | cons v vs =>
              obtain ⟨t, ts, hsplit⟩ :
                  ∃ t ts, splitChar ',' v = t :: ts := by
                cases hs : splitChar ',' v with
                | nil => exact absurd hs (splitChar_ne_nil ',' v)
                | cons a b => exact ⟨a, b, rfl⟩
              simp only [scanValues, hsplit, scanTokens_true_cons]
              rw [scanValues_false_eq_any, scanTokens_false_eq_any]
              simp only [allAcceptTokens, hsplit, List.cons_append,
                List.any_cons, List.any_append]
              by_cases h1 : normalizeAcceptToken t = ("*/*").data <;>
                by_cases h2 : isHTMLMediaType (normalizeAcceptToken t) = true <;>
                  simp only [h1, h2] <;>
                    cases hts : (ts.any fun x => isHTMLMediaType (normalizeAcceptToken x)) <;>
                      cases hvs : (allAcceptTokens vs).any
                          (fun x => isHTMLMediaType (normalizeAcceptToken x)) <;>
                        simp [h1, h2, hts, hvs]

/-! ### `wrap_writer` — `basicWriter` state machine

Embedded from the wrap-writer file, lines 66-131 (`basicWriter`,
`WriteHeader`, `Write`, `maybeWriteHeader`, `Tee`) and lines 202-213
(`httpFancyWriter.ReadFrom`). The underlying `http.ResponseWriter` is
modelled by what it observes: the status/header snapshot taken at the
single forwarded `WriteHeader` call, and the body bytes it accepts. The
header map is modelled by the only two keys this code reads or writes
(`Content-Length`, `Content-Type`; the empty string means unset). A Go
`int` is 64-bit here (amd64/arm64), so the content-length addition wraps
at `2^63`. The `bytes` hit counter is not modelled (no claim reads it). -/

/-- Model of `strconv.Atoi`: optional sign, decimal digits, 64-bit range
check (`none` models a returned error, which the source ignores). -/
def goAtoi (s : String) : Option Int :=
  match s.data with
  | [] => none
  | c :: rest =>
      let signed : Bool × List Char :=
        if c = '-' then (true, rest)
        else if c = '+' then (false, rest)
        else (false, c :: rest)
      if signed.2 = [] then none
      else if signed.2.all (fun d => '0' ≤ d && d ≤ '9') then
        let mag : Nat := signed.2.foldl (fun acc d => acc * 10 + (d.toNat - 48)) 0
        let v : Int := if signed.1 then -(mag : Int) else (mag : Int)
        if v < -(2 ^ 63) ∨ 2 ^ 63 ≤ v then none else some v
      else none

/-- Model of `strconv.Itoa`. -/
def goItoa (i : Int) : String :=
  toString i

/-- Wrap-around of 64-bit signed integer arithmetic. -/
def wrap64 (i : Int) : Int :=
  (i + 2 ^ 63) % 2 ^ 64 - 2 ^ 63

/-- State of one `basicWriter` plus what its underlying sink observed.
`sinkCode` is the `(code, Content-Length, Content-Type)` snapshot taken
when `b.ResponseWriter.WriteHeader` is forwarded (headers are serialized
by the underlying writer at that moment); `sinkBody` the body bytes the
underlying writer accepted; `tee` the side buffer set by `Tee`. -/
structure BasicWriter where
  contentLength : String
  contentType : String
  scriptSize : Int
  wroteHeader : Bool
  code : Int
  sinkCode : Option (Int × String × String)
  sinkBody : List Char
  tee : Option (List Char)
deriving DecidableEq

/-- The header mutation at the top of `basicWriter.WriteHeader` (lines
83-92): when `Content-Length` is set and `Content-Type` has prefix
`text/html` and the length parses, it is replaced by
`strconv.Itoa(cl + b.scriptSize)` (64-bit addition). -/
def clAfterAdjust (cl ct : String) (sz : Int) : String :=
  if cl ≠ ("") ∧ goHasPrefix ct ("text/html") = true then
    match goAtoi cl with
    | some v => goItoa (wrap64 (v + sz))
    | none => cl
  else cl

/-- Shallow embedding of `basicWriter.WriteHeader(code)`: the adjustment
block runs on every call; the status forward and snapshot happen only on
the first call (`!b.wroteHeader`). -/
def goWriteHeader (b : BasicWriter) (code : Int) : BasicWriter :=
  let b1 : BasicWriter :=
    { b with contentLength := clAfterAdjust b.contentLength b.contentType b.scriptSize }
  if b1.wroteHeader then b1
  else
    { b1 with
      code := code
      wroteHeader := true
      sinkCode := some (code, b1.contentLength, b1.contentType) }

/-- Shallow embedding of `basicWriter.Write(buf)`: `maybeWriteHeader`,
forward to the underlying writer (which reports `n` bytes written,
clamped to the buffer length), then mirror `buf[:n]` into the tee. -/
def goWrite (b : BasicWriter) (buf : List Char) (n : Nat) : BasicWriter :=
  let b1 := if b.wroteHeader then b else goWriteHeader b 200
  let acc := buf.take (min n buf.length)
  { b1 with
    sinkBody := b1.sinkBody ++ acc
    tee := match b1.tee with
           | some t => some (t ++ acc)
           | none => none }

/-- Model of `io.Copy(&f.basicWriter, r)`: the reader is a list of
`(chunk, accepted)` pairs; each chunk goes through `basicWriter.Write`,
and a short write aborts the copy. -/
def goCopy (b : BasicWriter) : List (List Char × Nat) → BasicWriter
  | [] => b
  | ck :: rest =>
      let b1 := goWrite b ck.1 ck.2
      if min ck.2 ck.1.length < ck.1.length then b1 else goCopy b1 rest

/-- Concatenation of all chunk contents of a reader. -/
def concatChunks : List (List Char × Nat) → List Char
  | [] => []
  | ck :: rest => ck.1 ++ concatChunks rest

/-- Shallow embedding of `httpFancyWriter.ReadFrom(r)`: with a tee set it
copies through `basicWriter.Write` (lines 203-207); otherwise it calls
`maybeWriteHeader` and hands the reader to the underlying
`io.ReaderFrom`, which consumes it wholesale. -/
def goReadFrom (b : BasicWriter) (chunks : List (List Char × Nat)) : BasicWriter :=
  match b.tee with
  | some _ => goCopy b chunks
  | none =>
      let b1 := if b.wroteHeader then b else goWriteHeader b 200
      { b1 with sinkBody := b1.sinkBody ++ concatChunks chunks }

/-- The calls a handler can make that claim C2 quantifies over. -/
inductive HOp
  | writeHeader (code : Int)
  | write (buf : List Char) (n : Nat)

def hOpApply (b : BasicWriter) : HOp → BasicWriter
  | HOp.writeHeader c => goWriteHeader b c
  | HOp.write buf n => goWrite b buf n

def runH (b : BasicWriter) : List HOp → BasicWriter
  | [] => b
  | op :: ops => runH (hOpApply b op) ops

/-- The status an op establishes when it is the first call: an explicit
code, or the implicit `http.StatusOK` from `maybeWriteHeader`. -/
def hOpCode : HOp → Int
  | HOp.writeHeader c => c
  | HOp.write _ _ => 200

/-- The calls claim C8 quantifies over (body-producing ops included). -/
inductive TOp
  | writeHeader (code : Int)
  | write (buf : List Char) (n : Nat)
  | readFrom (chunks : List (List Char × Nat))

def tOpApply (b : BasicWriter) : TOp → BasicWriter
  | TOp.writeHeader c => goWriteHeader b c
  | TOp.write buf n => goWrite b buf n
  | TOp.readFrom chunks => goReadFrom b chunks

def runT (b : BasicWriter) : List TOp → BasicWriter
  | [] => b
  | op :: ops => runT (tOpApply b op) ops

/-- The interceptor state `Handle` builds before calling the wrapped
handler: fresh `basicWriter` via `newWrapResponseWriter(w, proto,
scriptSize)` with the response headers already holding `clStr` / `ct`,
then `wrap.Tee(body)` with an empty buffer. -/
def initBW (clStr ct : String) (sz : Int) : BasicWriter :=
  { contentLength := clStr
    contentType := ct
    scriptSize := sz
    wroteHeader := false
    code := 0
    sinkCode := none
    sinkBody := []
    tee := some [] }

theorem goWriteHeader_sinkCode_of_wrote (b : BasicWriter) (c : Int)
    (hb : b.wroteHeader = true) :
    (goWriteHeader b c).sinkCode = b.sinkCode ∧
      (goWriteHeader b c).wroteHeader = true := by
  simp [goWriteHeader, hb]

theorem goWrite_sinkCode_of_wrote (b : BasicWriter) (buf : List Char) (n : Nat)
    (hb : b.wroteHeader = true) :
    (goWrite b buf n).sinkCode = b.sinkCode ∧
      (goWrite b buf n).wroteHeader = true := by
  simp [goWrite, hb]

theorem runH_sinkCode_of_wrote (ops : List HOp) :
    ∀ b : BasicWriter, b.wroteHeader = true →
      (runH b ops).sinkCode = b.sinkCode ∧ (runH b ops).wroteHeader = true := by
  induction ops with
  | nil => intro b hb; exact ⟨rfl, hb⟩
  | cons op ops ih =>
      intro b hb
      cases op with
      | writeHeader c =>
          obtain ⟨h1, h2⟩ := goWriteHeader_sinkCode_of_wrote b c hb
          obtain ⟨h3, h4⟩ := ih _ h2
          exact ⟨h3.trans h1, h4⟩
      | write buf n =>
          obtain ⟨h1, h2⟩ := goWrite_sinkCode_of_wrote b buf n hb
          obtain ⟨h3, h4⟩ := ih _ h2
          exact ⟨h3.trans h1, h4⟩

theorem hOpApply_fresh (b : BasicWriter) (op : HOp)
    (hb : b.wroteHeader = false) :
    (hOpApply b op).sinkCode =
        some (hOpCode op,
          clAfterAdjust b.contentLength b.contentType b.scriptSize,
          b.contentType) ∧
      (hOpApply b op).wroteHeader = true := by
  cases op with
  | writeHeader c => simp [hOpApply, goWriteHeader, hb, hOpCode]
  | write buf n => simp [hOpApply, goWrite, goWriteHeader, hb, hOpCode]

theorem wrap64_eq_self (x : Int) (h1 : -(2 ^ 63) ≤ x) (h2 : x < 2 ^ 63) :
    wrap64 x = x := by
  have hmod : (x + 2 ^ 63) % 2 ^ 64 = x + 2 ^ 63 :=
    Int.emod_eq_of_lt (by omega) (by omega)
  simp only [wrap64, hmod]
  omega

/-- C2 (amended): for every call sequence on the interceptor,
`WriteHeader`'s first call wins (the code forwarded to the underlying
sink is the first op's explicit code, or 200 when a body write comes
first), and the Content-Length forwarded with it is the initial one
adjusted exactly once by `clAfterAdjust`; with an HTML Content-Type and a
parsing Content-Length, `clAfterAdjust` grows it by exactly the script's
byte-length whenever the 64-bit sum does not overflow. -/
theorem basicWriter_first_call_wins_and_growth :
    (∀ (clStr ct : String) (sz : Int) (op : HOp) (ops : List HOp),
        (runH (initBW clStr ct sz) (op :: ops)).sinkCode =
          some (hOpCode op, clAfterAdjust clStr ct sz, ct)) ∧
      (∀ (cl ct : String) (v sz : Int),
        goAtoi cl = some v →
          goHasPrefix ct ("text/html") = true →
            -(2 ^ 63) ≤ v + sz → v + sz < 2 ^ 63 →
              clAfterAdjust cl ct sz = goItoa (v + sz)) := by
  constructor
  · intro clStr ct sz op ops
    have hfresh := hOpApply_fresh (initBW clStr ct sz) op rfl
    have hrun := runH_sinkCode_of_wrote ops (hOpApply (initBW clStr ct sz) op) hfresh.2
    calc (runH (initBW clStr ct sz) (op :: ops)).sinkCode
        = (hOpApply (initBW clStr ct sz) op).sinkCode := hrun.1
      _ = some (hOpCode op, clAfterAdjust clStr ct sz, ct) := hfresh.1
  · intro cl ct v sz hv hct h1 h2
    have hne : cl ≠ ("") := by
      intro h
      rw [h] at hv
      have : goAtoi ("") = none := rfl
      rw [this] at hv
      exact Option.noConfusion hv
    simp only [clAfterAdjust, if_pos (And.intro hne hct), hv,
      wrap64_eq_self (v + sz) h1 h2]

/-- C2 witness: handler calls `WriteHeader(200)` then `WriteHeader(404)`
with `Content-Length: 10`, HTML content type and a 5-byte script: the
sink sees code 200 and Content-Length 15, grown once. -/
theorem basicWriter_first_call_wins_and_growth_witness :
    (runH (initBW ("10") ("text/html") 5)
        [HOp.writeHeader 200, HOp.writeHeader 404]).sinkCode =
      some (200, ("15"), ("text/html")) ∧
      clAfterAdjust ("10") ("text/html") 5 = goItoa (10 + 5) := by
  constructor
  · rw [basicWriter_first_call_wins_and_growth.1 ("10") ("text/html") 5
      (HOp.writeHeader 200) [HOp.writeHeader 404]]
    rfl
  · exact basicWriter_first_call_wins_and_growth.2 ("10") ("text/html") 10 5
      (by decide) (by decide) (by norm_num) (by norm_num)

/-- C2 counterexample: with `Content-Length: 9223372036854775807`
(`math.MaxInt64`) and a 1-byte script, the 64-bit addition wraps and the
forwarded Content-Length is `-9223372036854775808`, not the original
grown by exactly 1 (which would be `9223372036854775808`). -/
theorem basicWriter_growth_overflow_cex :
    (runH (initBW ("9223372036854775807") ("text/html") 1)
        [HOp.writeHeader 200]).sinkCode =
      some (200, ("-9223372036854775808"), ("text/html")) ∧
      goItoa (9223372036854775807 + 1) = ("9223372036854775808") ∧
      ("-9223372036854775808" : String) ≠ ("9223372036854775808") := by
  refine ⟨by decide, by decide, by decide⟩

theorem goWriteHeader_tee_sinkBody (b : BasicWriter) (c : Int) :
    (goWriteHeader b c).tee = b.tee ∧ (goWriteHeader b c).sinkBody = b.sinkBody := by
  simp only [goWriteHeader]
  split <;> exact ⟨rfl, rfl⟩

theorem goWrite_tee (b : BasicWriter) (buf : List Char) (n : Nat)
    (h : b.tee = some b.sinkBody) :
    (goWrite b buf n).tee = some ((goWrite b buf n).sinkBody) := by
  simp only [goWrite]
  by_cases hb : b.wroteHeader = true
  · simp only [if_pos hb, h]
  · simp only [Bool.not_eq_true] at hb
    simp only [hb, if_false, Bool.false_eq_true,
      (goWriteHeader_tee_sinkBody b 200).1, (goWriteHeader_tee_sinkBody b 200).2, h]

theorem goCopy_tee (chunks : List (List Char × Nat)) :
    ∀ b : BasicWriter, b.tee = some b.sinkBody →
      (goCopy b chunks).tee = some ((goCopy b chunks).sinkBody) := by
  induction chunks with
  | nil => intro b h; exact h
  | cons ck rest ih =>
      intro b h
      simp only [goCopy]
      split
      · exact goWrite_tee b ck.1 ck.2 h
      · exact ih _ (goWrite_tee b ck.1 ck.2 h)

theorem goReadFrom_tee (b : BasicWriter) (chunks : List (List Char × Nat))
    (h : b.tee = some b.sinkBody) :
    (goReadFrom b chunks).tee = some ((goReadFrom b chunks).sinkBody) := by
  simp only [goReadFrom, h]
  exact goCopy_tee chunks b h

theorem runT_tee (ops : List TOp) :
    ∀ b : BasicWriter, b.tee = some b.sinkBody →
      (runT b ops).tee = some ((runT b ops).sinkBody) := by
  induction ops with
  | nil => intro b h; exact h
  | cons op ops ih =>
      intro b h
      cases op with
      | writeHeader c =>
          refine ih _ ?_
          show (goWriteHeader b c).tee = some (goWriteHeader b c).sinkBody
          rw [(goWriteHeader_tee_sinkBody b c).1, (goWriteHeader_tee_sinkBody b c).2]
          exact h
      | write buf n => exact ih _ (goWrite_tee b buf n h)
      | readFrom chunks => exact ih _ (goReadFrom_tee b chunks h)

/-- C8: starting from the state `Handle` builds (tee buffer set, nothing
written yet), after any sequence of `WriteHeader` / `Write` / `ReadFrom`
calls the tee buffer holds exactly the body bytes the underlying sink
received — `Write` mirrors the bytes it forwards, and `ReadFrom` with a
tee set copies through `basicWriter.Write` instead of bypassing the tee. -/
theorem tee_mirrors_forwarded_body :
    ∀ (clStr ct : String) (sz : Int) (ops : List TOp),
      (runT (initBW clStr ct sz) ops).tee =
        some ((runT (initBW clStr ct sz) ops).sinkBody) := by
  intro clStr ct sz ops
  exact runT_tee ops (initBW clStr ct sz) rfl

/-! ### `reload.go` — tail of `Handle` (lines 171-189)

After `next.ServeHTTP(wrap, r)` the middleware reads the `Content-Type`
response header; when empty it falls back to `http.DetectContentType` of
the teed body (the sniffer is external library code, modelled as the
parameter `sniffed`); if the resolved type has prefix `text/html` it
writes the script directly to the underlying writer, after everything the
handler wrote. -/

def resolveContentType (header sniffed : String) : String :=
  if header = ("") then sniffed else header

/-- Shallow embedding of the injection step at the end of `Handle`: the
final body the underlying sink receives, given the handler-produced body
and the script. -/
def handleFinalize (header sniffed : String) (body script : List Char) : List Char :=
  if goHasPrefix (resolveContentType header sniffed) ("text/html") = true then
    body ++ script
  else body

/-- C3 (amended): for every response `Handle` resolves as HTML, the final
body is the handler's body with the script appended at the very end (a
raw append); in particular when the body contains a closing body tag the
script lands after it, not before. -/
theorem handle_appends_script_at_end (header sniffed : String)
    (body script : List Char)
    (h : goHasPrefix (resolveContentType header sniffed) ("text/html") = true) :
    handleFinalize header sniffed body script = body ++ script := by
  simp [handleFinalize, h]

/-- C3 witness: an explicit HTML response gets the script appended. -/
theorem handle_appends_script_at_end_witness :
    handleFinalize ("text/html; charset=utf-8") ("")
        (("<body>x</body>").data) (("<script>S</script>").data) =
      ("<body>x</body>").data ++ ("<script>S</script>").data :=
  handle_appends_script_at_end ("text/html; charset=utf-8") ("")
    (("<body>x</body>").data) (("<script>S</script>").data) (by decide)

def occursAt (hay pat : List Char) (i : Nat) : Bool :=
  startsWithList pat (hay.drop i)

def noOccurrenceBefore (hay pat : List Char) (k : Nat) : Bool :=
  (List.range k).all fun i => !occursAt hay pat i

/-- C3 counterexample: for the HTML body `"<body>x</body>"` the closing
body tag sits at byte 7 of the final response body, and the injected
script does not occur anywhere strictly before it (it is appended at the
end, byte 14), so the claim "the injected script appears strictly before
the closing tag" fails. -/
theorem handle_script_not_before_closing_tag_cex :
    handleFinalize ("text/html") ("")
        (("<body>x</body>").data) (("<script>S</script>").data) =
      (("<body>x</body><script>S</script>").data) ∧
      listIndexOf closeBodyTag (("<body>x</body><script>S</script>").data) = some 7 ∧
      noOccurrenceBefore (("<body>x</body><script>S</script>").data)
        (("<script>S</script>").data) 7 = true := by
  refine ⟨by decide, by decide, by decide⟩

/-! ### `watch.go` — `WatchDirectories` initialization (lines 17-51)

The initialization phase is modelled as a function of the outcomes of its
two external effects: whether `fsnotify.NewWatcher()` succeeds, and the
result of `recursiveWalk` for each configured root (a `*fs.PathError`, another
error, or the list of directories found). When `NewWatcher` fails the
source only logs — it does not return — and continues with a nil
`*fsnotify.Watcher`; every later use of the watcher (`w.Add`, the
deferred `w.Close`, reading `w.Errors` / `w.Events` in the loop)
dereferences the nil pointer and panics, which in a goroutine kills the
process. `filepath.Abs` failures (log-and-continue) are not modelled. -/

inductive WalkResult
  | pathErr
  | otherErr
  | ok (dirs : List String)

inductive InitOutcome
  | returned
  | panicked
  | looped
deriving DecidableEq

/-- The per-root loop of `WatchDirectories` followed by entry into the
event loop. `watcherOk = false` means `fsnotify.NewWatcher` failed and
the watcher is nil. A walk error returns (running the deferred
`w.Close()`, a nil dereference when the watcher is nil); walked
directories are handed to `w.Add` (nil dereference when nil); after all
roots the event loop starts (reading `w.Errors` dereferences nil). -/
def processDirs (watcherOk : Bool) : List WalkResult → InitOutcome
  | [] => if watcherOk then InitOutcome.looped else InitOutcome.panicked
  | WalkResult.pathErr :: _ =>
      if watcherOk then InitOutcome.returned else InitOutcome.panicked
  | WalkResult.otherErr :: _ =>
      if watcherOk then InitOutcome.returned else InitOutcome.panicked
  | WalkResult.ok dirs :: rest =>
      if dirs.isEmpty then processDirs watcherOk rest
      else if watcherOk then processDirs watcherOk rest
      else InitOutcome.panicked

/-- Shallow embedding of the initialization of
`Reloader.WatchDirectories`: empty directory list returns at once (before
the watcher is created); otherwise the roots are walked in order. -/
def watchDirectoriesInit (watcherOk : Bool) (walks : List WalkResult) : InitOutcome :=
  if walks.isEmpty then InitOutcome.returned
  else processDirs watcherOk walks

/-- C7: evaluation at the failing input. When `fsnotify.NewWatcher` fails
(for an existing, walkable root) the function panics on the nil watcher
instead of returning, so "initialization failure never panics" is false;
the missing-root case, by contrast, is reported and returns as claimed. -/
theorem watchDirectoriesInit_newWatcher_error_panics :
    watchDirectoriesInit false [WalkResult.ok [("root")]] = InitOutcome.panicked ∧
      watchDirectoriesInit true [WalkResult.pathErr] = InitOutcome.returned ∧
      watchDirectoriesInit true [] = InitOutcome.returned := by
  refine ⟨rfl, rfl, rfl⟩

/-! ### `watch.go` — create-event branch of the watch loop (lines 73-81)

Paths are modelled as non-empty lists of path segments;
`filepath.Dir` drops the last segment. The watched set is the list of
directories registered with the watcher; `w.Add` is idempotent for an
already-watched path. The branch computes `dir := filepath.Dir(e.Name)`,
calls `w.Add(dir)` (on error: log and `continue`, skipping the debounce),
then hands the event to the debouncer. -/

def filepathDir (p : List String) : List String :=
  p.dropLast

def addWatch (ws : List (List String)) (p : List String) : List (List String) :=
  if p ∈ ws then ws else ws ++ [p]

/-- Shallow embedding of the `e.Has(fsnotify.Create)` case of the watch
loop: returns the new watched set and whether the event reached the
debouncer. -/
def watchLoopCreate (ws : List (List String)) (name : List String)
    (addFails : Bool) : List (List String) × Bool :=
  let dir := filepathDir name
  if addFails then (ws, false)
  else (addWatch ws dir, true)

/-- C6: evaluation at the failing input. A create event for the new
directory `root/sub` (with `root` watched) adds a watch only for
`filepath.Dir("root/sub") = "root"` — already watched, so the watch set
is unchanged and the created directory itself is never watched — while
the event does reach the debouncer. -/
theorem watchLoopCreate_does_not_watch_created_dir :
    watchLoopCreate [[("root")]] [("root"), ("sub")] false = ([[("root")]], true) ∧
      [("root"), ("sub")] ∉ (watchLoopCreate [[("root")]] [("root"), ("sub")] false).1 := by
  refine ⟨rfl, by decide⟩
